import Mathlib

/-!
Verification of the chat relay handler in `api/chat.js`.

The development shallowly embeds the handler:
* the reflection extractor `parseReflectionsFromAIOutput` (two regex passes over
  the assistant text) is embedded as executable functions over `List Char`;
* the request orchestration (`module.exports`) is embedded as a pure function
  from the inbound request, the environment, the upstream response and the
  failure behaviour of the two best-effort stores to a `HandlerResult` that
  records the HTTP response together with every outbound call and log line.

JavaScript numbers are modelled as rationals (the handler only moves them
around and tests them for truthiness; no float arithmetic occurs), JS `undefined`
fields as `Option`, and JS truthiness (`||`, `if (x)`, `!x`) explicitly per type.
-/

namespace ChatRelay

/-! ## Character classes of the regexes

The two regexes carry the `i` flag, so literal characters match
case-insensitively.  `foldNat` is ASCII case folding on code points (the
patterns are pure ASCII).  `jsWS` is the ASCII part of the regex class `\s`,
`jsDigit` is `\d`. -/

/-- ASCII case folding of a character's code point: upper-case letters are
mapped to the corresponding lower-case code, everything else kept. -/
def foldNat (c : Char) : Nat :=
  if 65 ≤ c.toNat ∧ c.toNat ≤ 90 then c.toNat + 32 else c.toNat

/-- Case-insensitive character comparison (the `i` flag of both regexes). -/
def lowerEq (a b : Char) : Bool := foldNat a == foldNat b

/-- The regex class `\s`, restricted to its ASCII members (the only ones the
claims exercise): space, tab, line feed, carriage return, vertical tab, form
feed. -/
def jsWS (c : Char) : Bool :=
  c == ' ' || c == '\t' || c == '\n' || c == '\r' || c == '\x0b' || c == '\x0c'

/-- The regex class `\d`: the ASCII digits. -/
def jsDigit (c : Char) : Bool := 48 ≤ c.toNat && c.toNat ≤ 57

/-- Case-insensitive: the pattern `p` matches at the head of `s` (a prefix
check under `lowerEq`). -/
def ciStarts : List Char → List Char → Bool
  | [], _ => true
  | _ :: _, [] => false
  | p :: ps, c :: cs => lowerEq p c && ciStarts ps cs

/-- The literal part of the detailed-reflection label pattern. -/
def detPat : List Char := "DETAILED REFLECTION".toList

/-- The brief-reflection label pattern (`Reflection:`). -/
def briefPat : List Char := "Reflection:".toList

/-- The Markdown-style delimiter pattern (`####`). -/
def hashPat : List Char := "####".toList

/-! ## The detailed-reflection label

`detLabel s` embeds matching of `DETAILED REFLECTION\s*\d+\s*:` at the head of
`s`: it returns the length of the matched label (ending at the colon), or
`none`.  The greedy `\s*`/`\d+` quantifiers are deterministic here because the
character classes involved (`\s`, `\d`, `:`) are pairwise disjoint, so maximal
munch coincides with the regex backtracking semantics. -/

/-- Length of the match of `DETAILED REFLECTION\s*\d+\s*:` at the head of `s`
(`none` when the pattern does not match there). -/
def detLabel (s : List Char) : Option Nat :=
  if ciStarts detPat s then
    let r1 := s.drop detPat.length
    let w1 := (r1.takeWhile jsWS).length
    let r2 := r1.drop w1
    let d := (r2.takeWhile jsDigit).length
    if d = 0 then none
    else
      let r3 := r2.drop d
      let w2 := (r3.takeWhile jsWS).length
      match r3.drop w2 with
      | ':' :: _ => some (detPat.length + w1 + d + w2 + 1)
      | _ => none
  else none

/-- The lookahead of the detailed-reflection regex: another detailed label, a
`Reflection:` label, or `####` stands at this position (`$` is the end of the
input, handled by the callers' base cases). -/
def boundaryHere (s : List Char) : Bool :=
  (detLabel s).isSome || ciStarts briefPat s || ciStarts hashPat s

/-- The lazy capture `([\s\S]*?)` of the detailed regex: split `s` at the first
position where the lookahead matches (or at the end).  Returns (captured body,
remaining input at the lookahead position — where `lastIndex` resumes). -/
def grabBody : List Char → List Char × List Char
  | [] => ([], [])
  | c :: cs =>
    if boundaryHere (c :: cs) then ([], c :: cs)
    else
      let p := grabBody cs
      (c :: p.1, p.2)

/-- Leftmost match of the detailed label in `s`: its start index and the label
length there. -/
def findDet : List Char → Option (Nat × Nat)
  | [] => none
  | c :: cs =>
    match detLabel (c :: cs) with
    | some n => some (0, n)
    | none => (findDet cs).map (fun p => (p.1 + 1, p.2))

/-- The `.trim()` of JavaScript strings, over the modelled whitespace set. -/
def trimChars (s : List Char) : List Char :=
  ((s.dropWhile jsWS).reverse.dropWhile jsWS).reverse

/-- An extracted reflection: `type` and trimmed `content`, as pushed onto the
`reflections` array. -/
structure Reflection where
  type : String
  content : String
deriving DecidableEq, Repr

/-- One step of the `detailedReflectionRegex.exec` loop body at a match
`(i, n)`: `match[0]` is the label plus the captured body, `type` is
`match[0].split(':')[0].trim()`, `content` is `match[1].trim()`. -/
def detEntry (s : List Char) (i n : Nat) : Reflection :=
  let body := (grabBody (s.drop (i + n))).1
  let m := (s.drop i).take n ++ body
  { type := (trimChars (m.takeWhile (fun c => c ≠ ':'))).asString,
    content := (trimChars body).asString }

/-- The `while ((match = detailedReflectionRegex.exec(aiOutput)) !== null)`
loop, with the remaining input as state (`lastIndex` resumes at the lookahead
position).  The fuel argument bounds the number of iterations; every iteration
strictly shortens the remaining input, so `fuel = s.length` suffices
(`scanDetailed_eq_specDetailed`). -/
def scanDetailedAux : Nat → List Char → List Reflection
  | 0, _ => []
  | fuel + 1, s =>
    match findDet s with
    | none => []
    | some (i, n) =>
      detEntry s i n :: scanDetailedAux fuel (grabBody (s.drop (i + n))).2

/-- All detailed reflections of `s`, in match order (the first pass of
`parseReflectionsFromAIOutput`). -/
def scanDetailed (s : List Char) : List Reflection :=
  scanDetailedAux s.length s

/-- Index of the leftmost match of `Reflection:` in `s` (case-insensitive,
per the regex's `i` flag). -/
def findBrief : List Char → Option Nat
  | [] => none
  | c :: cs =>
    if ciStarts briefPat (c :: cs) then some 0
    else (findBrief cs).map (· + 1)

/-- The lazy capture of the brief regex: the text up to the first `####`
(or the whole input). -/
def grabBrief : List Char → List Char
  | [] => []
  | c :: cs => if ciStarts hashPat (c :: cs) then [] else c :: grabBrief cs

/-- The single `briefReflectionRegex.exec(aiOutput)` call: at most one entry,
from the first `Reflection:` match, with the fixed type `BRIEF REFLECTION`. -/
def briefReflection (s : List Char) : Option Reflection :=
  (findBrief s).map (fun i =>
    { type := "BRIEF REFLECTION",
      content := (trimChars (grabBrief (s.drop (i + briefPat.length)))).asString })

/-- The embedded `parseReflectionsFromAIOutput`: all detailed reflections in
text order, then the at-most-one brief reflection. -/
def parseReflectionsFromAIOutput (aiOutput : String) : List Reflection :=
  scanDetailed aiOutput.toList ++ (briefReflection aiOutput.toList).toList

/-! ## The request, the environment and the upstream response

`Option` models a JS field that may be `undefined`; the `truthy…` helpers spell
out JS truthiness per type (`""`, `0`, `false`, `undefined` are falsy; an array
is always truthy, even when empty). -/

/-- One element of the `messages` array. -/
structure Message where
  role : String
  content : String
deriving DecidableEq, Repr

/-- The recognized fields of the destructured request body.  Numeric fields are
modelled as rationals (the handler never computes with them). -/
structure ChatRequest where
  model : Option String := none
  messages : Option (List Message) := none
  temperature : Option Rat := none
  top_p : Option Rat := none
  top_k : Option Rat := none
  max_tokens : Option Rat := none
  presence_penalty : Option Rat := none
  frequency_penalty : Option Rat := none
  stream : Option Bool := none
  tools : Option (List String) := none
  tool_choice : Option String := none
  currentThreadId : Option String := none
deriving DecidableEq

/-- JS truthiness of a possibly-undefined string: present and non-empty. -/
def truthyS : Option String → Bool
  | none => false
  | some s => !s.isEmpty

/-- JS truthiness of a possibly-undefined number: present and non-zero. -/
def truthyN : Option Rat → Bool
  | none => false
  | some q => q != 0

/-- JS truthiness of a possibly-undefined boolean. -/
def truthyB : Option Bool → Bool
  | none => false
  | some b => b

/-- JS truthiness of a possibly-undefined array: arrays are always truthy. -/
def truthyL {α : Type} : Option (List α) → Bool
  | none => false
  | some _ => true

/-- The JS idiom `x || d` for a possibly-undefined number. -/
def jsOrN (v : Option Rat) (d : Rat) : Rat :=
  if truthyN v then v.getD d else d

/-- The JS idiom `x || d` for a possibly-undefined string. -/
def jsOrS (v : Option String) (d : String) : String :=
  if truthyS v then v.getD d else d

/-- The upstream request body, as the handler builds it (`fireworksPayload`).
`tools`/`tool_choice` are `none` when the corresponding key is absent. -/
structure FireworksPayload where
  model : String
  messages : List Message
  temperature : Rat
  top_p : Rat
  top_k : Rat
  max_tokens : Rat
  presence_penalty : Rat
  frequency_penalty : Rat
  stream : Bool
  tools : Option (List String)
  tool_choice : Option String
deriving DecidableEq

/-- The payload construction of `api/chat.js` lines 79–97: caller values merged
over defaults with `||`, `tools` added only when supplied non-empty, and
`tool_choice` only additionally when itself truthy.  (`model` and `messages`
are only read after validation has established them truthy.) -/
def fireworksPayload (req : ChatRequest) : FireworksPayload :=
  { model := req.model.getD ""
    messages := req.messages.getD []
    temperature := jsOrN req.temperature (3 / 5)
    top_p := jsOrN req.top_p 1
    top_k := jsOrN req.top_k 40
    max_tokens := jsOrN req.max_tokens 4096
    presence_penalty := jsOrN req.presence_penalty 0
    frequency_penalty := jsOrN req.frequency_penalty 0
    stream := if truthyB req.stream then req.stream.getD false else false
    tools := match req.tools with
      | some ts => if 0 < ts.length then some ts else none
      | none => none
    tool_choice := match req.tools with
      | some ts =>
        if 0 < ts.length then
          (if truthyS req.tool_choice then req.tool_choice else none)
        else none
      | none => none }

/-- The two secrets read from `process.env`. -/
structure Env where
  fireworksApiKey : Option String
  memApiKey : Option String
deriving DecidableEq

/-- The shape of the upstream JSON the handler inspects:
`data.choices[0].message.content`, plus an opaque remainder so that "the body
is returned unchanged" is observable. -/
structure MsgObj where
  content : Option String
deriving DecidableEq, Repr

/-- One element of `data.choices`. -/
structure ChoiceObj where
  message : Option MsgObj
deriving DecidableEq, Repr

/-- The parsed upstream JSON body. -/
structure ChatData where
  choices : Option (List ChoiceObj)
  extra : String
deriving DecidableEq, Repr

/-- The guarded field path
`data.choices && data.choices[0] && data.choices[0].message &&
data.choices[0].message.content ? data.choices[0].message.content : ''`. -/
def aiContentOf (d : ChatData) : String :=
  match d.choices with
  | some (c :: _) =>
    match c.message with
    | some m =>
      match m.content with
      | some s => if !s.isEmpty then s else ""
      | none => ""
    | none => ""
  | _ => ""

/-- The upstream byte stream (`response.body`): the chunks the reader yields,
and whether the read loop throws after them. -/
structure StreamBody where
  chunks : List String
  failAfter : Bool
deriving DecidableEq

/-- A successful upstream response: `jsonData` is what `response.json()`
parses to, `body` what `response.body` exposes. -/
structure UpstreamOk where
  jsonData : ChatData
  body : Option StreamBody
deriving DecidableEq

/-- What the single `fetch` to the inference provider returns. -/
inductive Upstream where
  | httpError (status : Nat) (errorText : String)
  | ok (r : UpstreamOk)
deriving DecidableEq

/-! ## The observable outcome of one invocation -/

/-- One `kv.set` call: the stable parts of the stored value (the key also
carries a timestamp and a random suffix, which the claims do not touch). -/
structure KVRecord where
  threadId : String
  type : String
  content : String
deriving DecidableEq, Repr

/-- One `mem0.add` call: the two turn entries and the `userId` tag. -/
structure MemCall where
  userContent : String
  agentContent : String
  userId : String
deriving DecidableEq, Repr

/-- The body of the HTTP response the handler sends.  `raw` (a plain text
body) is never produced by the handler; it exists so that claims about
relaying a body verbatim can be stated. -/
inductive HttpBody where
  | empty
  | errObj (error : String) (message : Option String)
  | dataObj (d : ChatData)
  | streamed (chunks : List String)
  | raw (text : String)
deriving DecidableEq

/-- Everything one invocation does that the claims observe: the response,
the upstream payload (if the fetch happened), the `kv.set` and `mem0.add`
calls attempted, and the console log lines. -/
structure HandlerResult where
  status : Nat
  body : HttpBody
  payloadSent : Option FireworksPayload
  kvCalls : List KVRecord
  memCalls : List MemCall
  logs : List String
deriving DecidableEq

/-- The terminal SSE event written when the relay loop throws mid-stream. -/
def streamErrChunk : String := "data: \x7b\"error\": \"Streaming interrupted\"\x7d\n\n"

/-- The message of the `TypeError` thrown by `messages[messages.length - 1]
.content` on an empty `messages` array, as surfaced by the catch-all. -/
def internalErrMsg : String := "Cannot read properties of undefined (reading 'content')"

/-- The embedded handler (`module.exports`).  `kvFails i` says whether the
`i`-th `kv.set` of this invocation throws; `memFails` whether `mem0.add`
throws.  Both are caught by the code, so they only influence the logs. -/
def handler (method : String) (env : Env) (req : ChatRequest) (upstream : Upstream)
    (kvFails : Nat → Bool) (memFails : Bool) : HandlerResult :=
  if method = "OPTIONS" then
    { status := 200, body := .empty, payloadSent := none,
      kvCalls := [], memCalls := [], logs := [] }
  else if method ≠ "POST" then
    { status := 405, body := .errObj "Method not allowed" none, payloadSent := none,
      kvCalls := [], memCalls := [], logs := [] }
  else if !truthyS env.fireworksApiKey then
    { status := 500,
      body := .errObj "Server configuration error"
        (some "API key not configured. Please check server environment variables."),
      payloadSent := none, kvCalls := [], memCalls := [],
      logs := ["FIREWORKS_API_KEY environment variable not set"] }
  else if !truthyS env.memApiKey then
    { status := 500,
      body := .errObj "Server configuration error" (some "Mem0 API key not configured."),
      payloadSent := none, kvCalls := [], memCalls := [],
      logs := ["MEM_API_KEY environment variable not set"] }
  else if !(truthyS req.model && truthyL req.messages) then
    { status := 400,
      body := .errObj "Bad request" (some "Missing required fields: model and messages"),
      payloadSent := none, kvCalls := [], memCalls := [],
      logs := ["Missing required fields in request:"] }
  else
    let payload := fireworksPayload req
    let baseLogs := ["Processing request:"]
    if truthyB req.stream then
      match upstream with
      | .httpError st txt =>
        { status := st, body := .errObj "API request failed" (some txt),
          payloadSent := some payload, kvCalls := [], memCalls := [],
          logs := baseLogs ++ ["Fireworks API Error:"] }
      | .ok r =>
        match r.body with
        | none =>
          { status := 500, body := .errObj "No response body from API" none,
            payloadSent := some payload, kvCalls := [], memCalls := [],
            logs := baseLogs }
        | some sb =>
          if sb.failAfter then
            { status := 200, body := .streamed (sb.chunks ++ [streamErrChunk]),
              payloadSent := some payload, kvCalls := [], memCalls := [],
              logs := baseLogs ++ ["Streaming error:"] }
          else
            { status := 200, body := .streamed sb.chunks,
              payloadSent := some payload, kvCalls := [], memCalls := [],
              logs := baseLogs }
    else
      match upstream with
      | .httpError st txt =>
        { status := st, body := .errObj "API request failed" (some txt),
          payloadSent := some payload, kvCalls := [], memCalls := [],
          logs := baseLogs ++ ["Fireworks API Error:"] }
      | .ok r =>
        let data := r.jsonData
        let aiResponseContent := aiContentOf data
        let threadId := jsOrS req.currentThreadId "unknown-thread"
        let reflections := parseReflectionsFromAIOutput aiResponseContent
        let kvCalls := reflections.map (fun rf =>
          { threadId := threadId, type := rf.type, content := rf.content : KVRecord })
        let kvLogs := (List.range reflections.length).map (fun i =>
          if kvFails i then "Error storing reflection in KV:" else "Reflection stored in KV:")
        match (req.messages.getD []).getLast? with
        | none =>
          -- `messages` is the empty array: validation passed (an array is
          -- truthy), but `messages[messages.length - 1]` is `undefined` and
          -- reading `.content` throws; the catch-all answers 500.
          { status := 500, body := .errObj "Internal server error" (some internalErrMsg),
            payloadSent := some payload, kvCalls := kvCalls, memCalls := [],
            logs := baseLogs ++ kvLogs ++ ["Server error:"] }
        | some lastMsg =>
          let userMessageForMem0 := lastMsg.content
          let doMem := !userMessageForMem0.isEmpty && !aiResponseContent.isEmpty
          let memCalls := if doMem then
              [{ userContent := userMessageForMem0, agentContent := aiResponseContent,
                 userId := jsOrS req.currentThreadId "default-user" : MemCall }]
            else []
          let memLogs := if doMem then
              [if memFails then "Error storing conversation in Mem0:"
               else "Conversation turn stored in Mem0 for userId:"]
            else []
          { status := 200, body := .dataObj data,
            payloadSent := some payload, kvCalls := kvCalls, memCalls := memCalls,
            logs := baseLogs ++ kvLogs ++ memLogs }

/-! ## Spec-side formulations of the extractor (§4.2, §8)

These follow the specification's wording — label occurrences enumerated by
index in source order, each section's content running to the next
label/delimiter/end — and are compared against the implementation-side
scanners above. -/

/-- Spec side: the indices at which a detailed-reflection label matches, in
source order. -/
def labelsIn (s : List Char) : List Nat :=
  (List.range s.length).filter (fun i => (detLabel (s.drop i)).isSome)

/-- The first index of `x` whose suffix satisfies `p`, or `x.length` when
none does. -/
def firstIdxOf (p : List Char → Bool) (x : List Char) : Nat :=
  ((List.range x.length).find? (fun m => p (x.drop m))).getD x.length

/-- Spec side: the first index of `x` where the next detailed label, a
`Reflection:` label or a `####` delimiter stands — `x.length` (the end of the
text) when there is none. -/
def firstBoundaryIdx (x : List Char) : Nat := firstIdxOf boundaryHere x

/-- Spec side: the first index of `x` where a `####` delimiter stands, or
`x.length`. -/
def firstHashIdx (x : List Char) : Nat := firstIdxOf (ciStarts hashPat) x

/-- The pattern `p` case-insensitively differs from its own shift by `k`
somewhere on the overlap.  When this holds, two matches of `p` cannot start
`k` positions apart. -/
def ciSelfDiff (p : List Char) (k : Nat) : Bool :=
  (List.range (p.length - k)).any
    (fun j => foldNat (p.getD j ' ') != foldNat (p.getD (k + j) ' '))

/-- Spec side: the Reflection of the label occurrence at index `i`: `type` is
the label text before its colon (trimmed), `content` the text between the
label and the next label, `Reflection:` label, `####` delimiter or end of
text (trimmed). -/
def specEntryAt (s : List Char) (i : Nat) : Reflection :=
  let n := (detLabel (s.drop i)).getD 0
  let rest := s.drop (i + n)
  { type := (trimChars ((s.drop i).take (n - 1))).asString,
    content := (trimChars (rest.take (firstBoundaryIdx rest))).asString }

/-- Spec side: one Reflection per detailed-label occurrence, in source
order. -/
def specDetailed (s : List Char) : List Reflection :=
  (labelsIn s).map (specEntryAt s)

/-- Spec side: the index of the first `Reflection:` label. -/
def specBriefIdx (s : List Char) : Option Nat :=
  (List.range s.length).find? (fun i => ciStarts briefPat (s.drop i))

/-- Spec side: the at-most-one brief reflection — from the first `Reflection:`
label only, content up to the next `####` delimiter or end of text (trimmed),
with the fixed type `BRIEF REFLECTION`. -/
def specBrief (s : List Char) : Option Reflection :=
  (specBriefIdx s).map (fun i =>
    let x := s.drop (i + briefPat.length)
    { type := "BRIEF REFLECTION",
      content := (trimChars (x.take (firstHashIdx x))).asString })

/-- The number of reflection-style labels (detailed or brief) occurring in
`s`. -/
def reflectionLabelCount (s : List Char) : Nat :=
  ((List.range s.length).filter
    (fun i => (detLabel (s.drop i)).isSome || ciStarts briefPat (s.drop i))).length

/-- Claim side (C7): the content of the most recent message whose role is
`user` — what "the single most recent user message" denotes. -/
def lastUserContent (msgs : List Message) : Option String :=
  ((msgs.filter (fun m => m.role == "user")).getLast?).map Message.content

/-! ## Concrete fixtures for witnesses and counterexamples -/

/-- An environment with both secrets set. -/
def envOK : Env := ⟨some "fk", some "mk"⟩

/-- A key-value store that never throws. -/
def kvNone : Nat → Bool := fun _ => false

/-- A minimal well-formed request. -/
def reqBasic : ChatRequest := { model := some "m", messages := some [⟨"user", "hi"⟩] }

/-- A well-formed request that supplies `temperature: 0`. -/
def reqTempZero : ChatRequest :=
  { model := some "m", messages := some [⟨"user", "hi"⟩], temperature := some 0 }

/-- A request missing only `model`. -/
def reqNoModel : ChatRequest := { messages := some [⟨"user", "hi"⟩] }

/-- A request missing only `messages`. -/
def reqNoMessages : ChatRequest := { model := some "m" }

/-- A request whose most recent message is from the assistant, not the
user. -/
def reqRole : ChatRequest :=
  { model := some "m", messages := some [⟨"user", "hello"⟩, ⟨"assistant", "world"⟩] }

/-- A request whose `messages` field is present but the empty array. -/
def reqEmptyMessages : ChatRequest := { model := some "m", messages := some [] }

/-- An upstream JSON body whose assistant reply is `"hi there"`. -/
def dataHi : ChatData := { choices := some [⟨some ⟨some "hi there"⟩⟩], extra := "" }

/-! # Theorems -/

/-! ## C1 — payload defaults -/

theorem jsOrN_of_ne {q d : Rat} (h : q ≠ 0) : jsOrN (some q) d = q := by
  simp [jsOrN, truthyN, bne_iff_ne, h]

theorem jsOrN_none (d : Rat) : jsOrN none d = d := rfl

theorem jsOrN_zero (d : Rat) : jsOrN (some 0) d = d := by
  simp [jsOrN, truthyN]

/-- C1, counterexample: the claim says a caller-supplied sampling value always
reaches the payload; but `temperature: 0` is falsy, so `temperature || 0.6`
replaces it with the default 0.6 (≠ 0). -/
theorem claim_C1_counterexample :
    reqTempZero.temperature = some 0 ∧
    (fireworksPayload reqTempZero).temperature = 3 / 5 ∧
    (3 / 5 : Rat) ≠ 0 :=
  ⟨rfl, rfl, by norm_num⟩

/-- C1 (amended): each sampling parameter equals the caller-supplied value
when that value is truthy (non-zero number, `true`), and the documented
default when the field is absent or supplied falsy; `tools` is included
exactly when supplied non-empty, and `tool_choice` only when `tools` is
included. -/
theorem claim_C1_amended (req : ChatRequest) :
    (∀ q, req.temperature = some q → q ≠ 0 → (fireworksPayload req).temperature = q) ∧
    ((req.temperature = none ∨ req.temperature = some 0) →
      (fireworksPayload req).temperature = 3 / 5) ∧
    (∀ q, req.top_p = some q → q ≠ 0 → (fireworksPayload req).top_p = q) ∧
    ((req.top_p = none ∨ req.top_p = some 0) → (fireworksPayload req).top_p = 1) ∧
    (∀ q, req.top_k = some q → q ≠ 0 → (fireworksPayload req).top_k = q) ∧
    ((req.top_k = none ∨ req.top_k = some 0) → (fireworksPayload req).top_k = 40) ∧
    (∀ q, req.max_tokens = some q → q ≠ 0 → (fireworksPayload req).max_tokens = q) ∧
    ((req.max_tokens = none ∨ req.max_tokens = some 0) →
      (fireworksPayload req).max_tokens = 4096) ∧
    (∀ q, req.presence_penalty = some q → q ≠ 0 →
      (fireworksPayload req).presence_penalty = q) ∧
    ((req.presence_penalty = none ∨ req.presence_penalty = some 0) →
      (fireworksPayload req).presence_penalty = 0) ∧
    (∀ q, req.frequency_penalty = some q → q ≠ 0 →
      (fireworksPayload req).frequency_penalty = q) ∧
    ((req.frequency_penalty = none ∨ req.frequency_penalty = some 0) →
      (fireworksPayload req).frequency_penalty = 0) ∧
    (req.stream = some true → (fireworksPayload req).stream = true) ∧
    ((req.stream = none ∨ req.stream = some false) → (fireworksPayload req).stream = false) ∧
    ((fireworksPayload req).tools ≠ none ↔ ∃ ts, req.tools = some ts ∧ ts ≠ []) ∧
    ((fireworksPayload req).tool_choice ≠ none → (fireworksPayload req).tools ≠ none) := by
  refine ⟨fun q hq h0 => by simp [fireworksPayload, hq, jsOrN_of_ne h0],
    fun h => by rcases h with h | h <;> simp [fireworksPayload, h, jsOrN_none, jsOrN_zero],
    fun q hq h0 => by simp [fireworksPayload, hq, jsOrN_of_ne h0],
    fun h => by rcases h with h | h <;> simp [fireworksPayload, h, jsOrN_none, jsOrN_zero],
    fun q hq h0 => by simp [fireworksPayload, hq, jsOrN_of_ne h0],
    fun h => by rcases h with h | h <;> simp [fireworksPayload, h, jsOrN_none, jsOrN_zero],
    fun q hq h0 => by simp [fireworksPayload, hq, jsOrN_of_ne h0],
    fun h => by rcases h with h | h <;> simp [fireworksPayload, h, jsOrN_none, jsOrN_zero],
    fun q hq h0 => by simp [fireworksPayload, hq, jsOrN_of_ne h0],
    fun h => by rcases h with h | h <;> simp [fireworksPayload, h, jsOrN_none, jsOrN_zero],
    fun q hq h0 => by simp [fireworksPayload, hq, jsOrN_of_ne h0],
    fun h => by rcases h with h | h <;> simp [fireworksPayload, h, jsOrN_none, jsOrN_zero],
    fun h => by simp [fireworksPayload, h, truthyB],
    fun h => by rcases h with h | h <;> simp [fireworksPayload, h, truthyB],
    ?_, ?_⟩
  · cases h : req.tools with
    | none => simp [fireworksPayload, h]
    | some ts =>
      cases ts with
      | nil => simp [fireworksPayload, h]
      | cons a l => simp [fireworksPayload, h]
  · cases h : req.tools with
    | none => simp [fireworksPayload, h]
    | some ts =>
      cases ts with
      | nil => simp [fireworksPayload, h]
      | cons a l => simp [fireworksPayload, h]

/-- Witness for C1 (amended): a supplied non-zero `temperature` survives and
an absent `top_p` gets its default. -/
theorem claim_C1_witness :
    (fireworksPayload { reqBasic with temperature := some 2 }).temperature = 2 ∧
    (fireworksPayload { reqBasic with temperature := some 2 }).top_p = 1 :=
  ⟨(claim_C1_amended _).1 2 rfl (by norm_num),
   (claim_C1_amended _).2.2.2.1 (Or.inl rfl)⟩

/-! ## C4 — upstream failure relaying -/

/-- C4, counterexample: on an upstream 418 with body `"teapot"`, the status is
relayed but the caller's body is the wrapper object
`{error: "API request failed", message: "teapot"}`, not the upstream error
body verbatim. -/
theorem claim_C4_counterexample :
    (handler "POST" envOK reqBasic (.httpError 418 "teapot") kvNone false).status = 418 ∧
    (handler "POST" envOK reqBasic (.httpError 418 "teapot") kvNone false).body
      = .errObj "API request failed" (some "teapot") ∧
    (handler "POST" envOK reqBasic (.httpError 418 "teapot") kvNone false).body
      ≠ .raw "teapot" :=
  ⟨rfl, rfl, by decide⟩

/-- C4 (amended): on a non-success upstream status — streaming or not — the
handler relays the upstream status code and returns a JSON error object
carrying the upstream error body verbatim as its `message`, with no reflection
extraction, no key-value write and no memory write. -/
theorem claim_C4_amended (env : Env) (req : ChatRequest) (st : Nat) (txt : String)
    (kvFails : Nat → Bool) (memFails : Bool)
    (h1 : truthyS env.fireworksApiKey = true) (h2 : truthyS env.memApiKey = true)
    (hm : truthyS req.model = true) (hmsg : truthyL req.messages = true) :
    handler "POST" env req (.httpError st txt) kvFails memFails =
      { status := st, body := .errObj "API request failed" (some txt),
        payloadSent := some (fireworksPayload req), kvCalls := [], memCalls := [],
        logs := ["Processing request:", "Fireworks API Error:"] } := by
  unfold handler
  simp only [h1, h2, hm, hmsg]
  norm_num
  cases truthyB req.stream <;> simp

/-- Witness for C4 (amended) at a concrete upstream 502. -/
theorem claim_C4_witness :
    handler "POST" envOK reqBasic (.httpError 502 "bad gateway") kvNone false =
      { status := 502, body := .errObj "API request failed" (some "bad gateway"),
        payloadSent := some (fireworksPayload reqBasic), kvCalls := [], memCalls := [],
        logs := ["Processing request:", "Fireworks API Error:"] } :=
  claim_C4_amended envOK reqBasic 502 "bad gateway" kvNone false rfl rfl rfl rfl

/-! ## C5 — required-field validation -/

/-- C5, counterexample: a request missing only `model` and a request missing
only `messages` produce the very same 400 response, whose fixed message names
both fields — it does not indicate which of the two is missing. -/
theorem claim_C5_counterexample :
    handler "POST" envOK reqNoModel (.httpError 0 "") kvNone false =
      handler "POST" envOK reqNoMessages (.httpError 0 "") kvNone false ∧
    (handler "POST" envOK reqNoModel (.httpError 0 "") kvNone false).status = 400 ∧
    (handler "POST" envOK reqNoModel (.httpError 0 "") kvNone false).body
      = .errObj "Bad request" (some "Missing required fields: model and messages") :=
  ⟨rfl, rfl, rfl⟩

/-- C5 (amended): with the credentials configured, a POST whose body is
missing (or supplies falsy) `model` or `messages` gets HTTP 400 with the fixed
message `"Missing required fields: model and messages"` — naming both
required fields, not the missing one — and no upstream call is made. -/
theorem claim_C5_amended (env : Env) (req : ChatRequest) (u : Upstream)
    (kvFails : Nat → Bool) (memFails : Bool)
    (h1 : truthyS env.fireworksApiKey = true) (h2 : truthyS env.memApiKey = true)
    (h : truthyS req.model = false ∨ truthyL req.messages = false) :
    handler "POST" env req u kvFails memFails =
      { status := 400,
        body := .errObj "Bad request" (some "Missing required fields: model and messages"),
        payloadSent := none, kvCalls := [], memCalls := [],
        logs := ["Missing required fields in request:"] } := by
  unfold handler
  rcases h with h | h <;> simp [h1, h2, h]

/-- Witness for C5 (amended): the concrete request missing `model`. -/
theorem claim_C5_witness :
    handler "POST" envOK reqNoModel (.httpError 0 "") kvNone false =
      { status := 400,
        body := .errObj "Bad request" (some "Missing required fields: model and messages"),
        payloadSent := none, kvCalls := [], memCalls := [],
        logs := ["Missing required fields in request:"] } :=
  claim_C5_amended envOK reqNoModel (.httpError 0 "") kvNone false rfl rfl (Or.inl rfl)

/-! ## C6 — missing secrets -/

/-- C6: if either required secret is absent from the environment, a POST gets
an HTTP 500 server-configuration error, and none of the three external
services is called. -/
theorem claim_C6_missing_secret (env : Env) (req : ChatRequest) (u : Upstream)
    (kvFails : Nat → Bool) (memFails : Bool)
    (h : env.fireworksApiKey = none ∨ env.memApiKey = none) :
    (handler "POST" env req u kvFails memFails).status = 500 ∧
    (∃ m, (handler "POST" env req u kvFails memFails).body
      = .errObj "Server configuration error" (some m)) ∧
    (handler "POST" env req u kvFails memFails).payloadSent = none ∧
    (handler "POST" env req u kvFails memFails).kvCalls = [] ∧
    (handler "POST" env req u kvFails memFails).memCalls = [] := by
  unfold handler
  rcases h with h | h
  · simp [h, truthyS]
  · cases hf : truthyS env.fireworksApiKey <;> simp [h, hf, truthyS]

/-- Witness for C6 at a concrete environment missing the inference key. -/
theorem claim_C6_witness :
    (handler "POST" ⟨none, some "mk"⟩ reqBasic (.httpError 0 "") kvNone false).status = 500 ∧
    (∃ m, (handler "POST" ⟨none, some "mk"⟩ reqBasic (.httpError 0 "") kvNone false).body
      = .errObj "Server configuration error" (some m)) ∧
    (handler "POST" ⟨none, some "mk"⟩ reqBasic (.httpError 0 "") kvNone false).payloadSent = none ∧
    (handler "POST" ⟨none, some "mk"⟩ reqBasic (.httpError 0 "") kvNone false).kvCalls = [] ∧
    (handler "POST" ⟨none, some "mk"⟩ reqBasic (.httpError 0 "") kvNone false).memCalls = [] :=
  claim_C6_missing_secret ⟨none, some "mk"⟩ reqBasic (.httpError 0 "") kvNone false (Or.inl rfl)

/-! ## C7 — the memory-service write -/

/-- C7, counterexample: with messages `[user "hello", assistant "world"]`, the
memory write submits `"world"` — the content of the most recent message, an
assistant message — although the most recent user message is `"hello"`. -/
theorem claim_C7_counterexample :
    (handler "POST" envOK reqRole (.ok ⟨dataHi, none⟩) kvNone false).memCalls
      = [⟨"world", "hi there", "default-user"⟩] ∧
    lastUserContent (reqRole.messages.getD []) = some "hello" ∧
    ("world" : String) ≠ "hello" := by
  refine ⟨by decide, by decide, by decide⟩

/-- C7 (amended): on a non-streaming upstream success, exactly one memory
write is performed when the content of the most recent message (whatever its
role — the code assumes it is the user's) and the assistant's raw reply are
both non-empty, and none otherwise; the write submits that last message's
content together with the raw reply, tagged with `currentThreadId` when
truthy, else `"default-user"`. -/
theorem claim_C7_amended (env : Env) (req : ChatRequest) (r : UpstreamOk)
    (kvFails : Nat → Bool) (memFails : Bool)
    (h1 : truthyS env.fireworksApiKey = true) (h2 : truthyS env.memApiKey = true)
    (hm : truthyS req.model = true) (msgs : List Message)
    (hmsgs : req.messages = some msgs) (hstream : truthyB req.stream = false)
    (lastMsg : Message) (hlast : msgs.getLast? = some lastMsg) :
    (handler "POST" env req (.ok r) kvFails memFails).status = 200 ∧
    (handler "POST" env req (.ok r) kvFails memFails).memCalls =
      (if !lastMsg.content.isEmpty && !(aiContentOf r.jsonData).isEmpty then
        [{ userContent := lastMsg.content, agentContent := aiContentOf r.jsonData,
           userId := jsOrS req.currentThreadId "default-user" }]
      else []) := by
  unfold handler
  simp [h1, h2, hm, hmsgs, truthyL, hstream, hlast]

/-- Witness for C7 (amended) at the concrete two-message request. -/
theorem claim_C7_witness :
    (handler "POST" envOK reqRole (.ok ⟨dataHi, none⟩) kvNone false).status = 200 ∧
    (handler "POST" envOK reqRole (.ok ⟨dataHi, none⟩) kvNone false).memCalls =
      (if !(Message.mk "assistant" "world").content.isEmpty
          && !(aiContentOf dataHi).isEmpty then
        [{ userContent := (Message.mk "assistant" "world").content,
           agentContent := aiContentOf dataHi,
           userId := jsOrS reqRole.currentThreadId "default-user" }]
      else []) :=
  claim_C7_amended envOK reqRole ⟨dataHi, none⟩ kvNone false rfl rfl rfl
    [⟨"user", "hello"⟩, ⟨"assistant", "world"⟩] rfl rfl ⟨"assistant", "world"⟩ rfl

/-! ## C8 — key-value failures are absorbed -/

/-- C8: on a non-streaming upstream success (with the data model's non-empty
`messages`), the handler returns 200 with the upstream JSON unchanged, one
`kv.set` is attempted per extracted reflection, and the response and the
outbound calls are the same under any key-value failure behaviour —
persistence failures never abort the request or change the response. -/
theorem claim_C8_kv_failures (env : Env) (req : ChatRequest) (r : UpstreamOk)
    (kvFails kvFails' : Nat → Bool) (memFails : Bool)
    (h1 : truthyS env.fireworksApiKey = true) (h2 : truthyS env.memApiKey = true)
    (hm : truthyS req.model = true) (msgs : List Message)
    (hmsgs : req.messages = some msgs) (hne : msgs ≠ [])
    (hstream : truthyB req.stream = false) :
    (handler "POST" env req (.ok r) kvFails memFails).status = 200 ∧
    (handler "POST" env req (.ok r) kvFails memFails).body = .dataObj r.jsonData ∧
    (handler "POST" env req (.ok r) kvFails memFails).kvCalls.length
      = (parseReflectionsFromAIOutput (aiContentOf r.jsonData)).length ∧
    (handler "POST" env req (.ok r) kvFails memFails).status
      = (handler "POST" env req (.ok r) kvFails' memFails).status ∧
    (handler "POST" env req (.ok r) kvFails memFails).body
      = (handler "POST" env req (.ok r) kvFails' memFails).body ∧
    (handler "POST" env req (.ok r) kvFails memFails).kvCalls
      = (handler "POST" env req (.ok r) kvFails' memFails).kvCalls ∧
    (handler "POST" env req (.ok r) kvFails memFails).memCalls
      = (handler "POST" env req (.ok r) kvFails' memFails).memCalls := by
  obtain ⟨lastMsg, hlast⟩ :=
    Option.isSome_iff_exists.mp (List.getLast?_isSome.mpr hne)
  unfold handler
  simp [h1, h2, hm, hmsgs, truthyL, hstream, hlast]

/-- Witness for C8: a key-value store that always throws versus one that never
does, on a reply containing one reflection. -/
theorem claim_C8_witness :
    (handler "POST" envOK reqBasic
        (.ok ⟨⟨some [⟨some ⟨some "Reflection: learned\n####"⟩⟩], ""⟩, none⟩)
        (fun _ => true) false).status = 200 ∧
    (handler "POST" envOK reqBasic
        (.ok ⟨⟨some [⟨some ⟨some "Reflection: learned\n####"⟩⟩], ""⟩, none⟩)
        (fun _ => true) false).body
      = .dataObj ⟨some [⟨some ⟨some "Reflection: learned\n####"⟩⟩], ""⟩ ∧
    (handler "POST" envOK reqBasic
        (.ok ⟨⟨some [⟨some ⟨some "Reflection: learned\n####"⟩⟩], ""⟩, none⟩)
        (fun _ => true) false).kvCalls.length
      = (parseReflectionsFromAIOutput
          (aiContentOf ⟨some [⟨some ⟨some "Reflection: learned\n####"⟩⟩], ""⟩)).length ∧
    (handler "POST" envOK reqBasic
        (.ok ⟨⟨some [⟨some ⟨some "Reflection: learned\n####"⟩⟩], ""⟩, none⟩)
        (fun _ => true) false).kvCalls
      = (handler "POST" envOK reqBasic
          (.ok ⟨⟨some [⟨some ⟨some "Reflection: learned\n####"⟩⟩], ""⟩, none⟩)
          kvNone false).kvCalls := by
  have h := claim_C8_kv_failures envOK reqBasic
    ⟨⟨some [⟨some ⟨some "Reflection: learned\n####"⟩⟩], ""⟩, none⟩
    (fun _ => true) kvNone false rfl rfl rfl [⟨"user", "hi"⟩] rfl (by decide) rfl
  exact ⟨h.1, h.2.1, h.2.2.1, h.2.2.2.2.2.1⟩

/-! ## C9 — streaming relay -/

/-- C9: on a streaming upstream success whose stream ends without error, the
handler relays exactly the upstream chunks, in order, with zero key-value and
zero memory writes. -/
theorem claim_C9_stream_relay (env : Env) (req : ChatRequest) (d : ChatData)
    (chunks : List String) (kvFails : Nat → Bool) (memFails : Bool)
    (h1 : truthyS env.fireworksApiKey = true) (h2 : truthyS env.memApiKey = true)
    (hm : truthyS req.model = true) (hmsg : truthyL req.messages = true)
    (hstream : truthyB req.stream = true) :
    handler "POST" env req (.ok ⟨d, some ⟨chunks, false⟩⟩) kvFails memFails =
      { status := 200, body := .streamed chunks,
        payloadSent := some (fireworksPayload req), kvCalls := [], memCalls := [],
        logs := ["Processing request:"] } := by
  unfold handler
  simp [h1, h2, hm, hmsg, hstream]

/-- Witness for C9 at two concrete chunks. -/
theorem claim_C9_witness :
    handler "POST" envOK { reqBasic with stream := some true }
        (.ok ⟨dataHi, some ⟨["data: a\n\n", "data: b\n\n"], false⟩⟩) kvNone false =
      { status := 200, body := .streamed ["data: a\n\n", "data: b\n\n"],
        payloadSent := some (fireworksPayload { reqBasic with stream := some true }),
        kvCalls := [], memCalls := [], logs := ["Processing request:"] } :=
  claim_C9_stream_relay envOK { reqBasic with stream := some true } dataHi
    ["data: a\n\n", "data: b\n\n"] kvNone false rfl rfl rfl rfl rfl

/-! ## C10 — empty `messages` passes validation and ends in a 500 -/

/-- C10: a POST with `messages: []` (and `model` and both secrets present)
passes the required-field validation — an empty array is truthy — the
upstream call is made, and on upstream success the out-of-bounds read of the
last message throws, so the handler answers the generic 500 internal error
rather than a 400. -/
theorem claim_C10_empty_messages (env : Env) (req : ChatRequest) (r : UpstreamOk)
    (kvFails : Nat → Bool) (memFails : Bool)
    (h1 : truthyS env.fireworksApiKey = true) (h2 : truthyS env.memApiKey = true)
    (hm : truthyS req.model = true) (hmsgs : req.messages = some [])
    (hstream : truthyB req.stream = false) :
    (handler "POST" env req (.ok r) kvFails memFails).status = 500 ∧
    (handler "POST" env req (.ok r) kvFails memFails).body
      = .errObj "Internal server error" (some internalErrMsg) ∧
    (handler "POST" env req (.ok r) kvFails memFails).payloadSent
      = some (fireworksPayload req) := by
  unfold handler
  simp [h1, h2, hm, hmsgs, truthyL, hstream]

/-- Witness for C10 at the concrete empty-messages request. -/
theorem claim_C10_witness :
    (handler "POST" envOK reqEmptyMessages (.ok ⟨dataHi, none⟩) kvNone false).status = 500 ∧
    (handler "POST" envOK reqEmptyMessages (.ok ⟨dataHi, none⟩) kvNone false).body
      = .errObj "Internal server error" (some internalErrMsg) ∧
    (handler "POST" envOK reqEmptyMessages (.ok ⟨dataHi, none⟩) kvNone false).payloadSent
      = some (fireworksPayload reqEmptyMessages) :=
  claim_C10_empty_messages envOK reqEmptyMessages ⟨dataHi, none⟩ kvNone false
    rfl rfl rfl rfl rfl

/-! ## The extractor: supporting lemmas for C2 and C3 -/

theorem lowerEq_iff {a b : Char} : lowerEq a b = true ↔ foldNat a = foldNat b := by
  simp [lowerEq]

theorem detPat_len : detPat.length = 19 := rfl

theorem briefPat_len : briefPat.length = 11 := rfl

theorem jsWS_fold_ne {c : Char} (h : jsWS c = true) : foldNat c ≠ 100 := by
  simp only [jsWS, Bool.or_eq_true, beq_iff_eq] at h
  rcases h with ((((h | h) | h) | h) | h) | h <;> subst h <;> decide

theorem jsDigit_fold_ne {c : Char} (h : jsDigit c = true) : foldNat c ≠ 100 := by
  simp only [jsDigit, Bool.and_eq_true, decide_eq_true_eq] at h
  unfold foldNat
  split <;> omega

theorem jsWS_ne_colon {c : Char} (h : jsWS c = true) : c ≠ ':' := by
  intro hc; subst hc; exact absurd h (by decide)

theorem jsDigit_ne_colon {c : Char} (h : jsDigit c = true) : c ≠ ':' := by
  intro hc; subst hc; exact absurd h (by decide)

theorem ciStarts_length : ∀ {p x : List Char}, ciStarts p x = true → p.length ≤ x.length
  | [], _, _ => Nat.zero_le _
  | _ :: _, [], h => by simp [ciStarts] at h
  | p :: ps, c :: cs, h => by
    simp only [ciStarts, Bool.and_eq_true] at h
    simpa using Nat.succ_le_succ (ciStarts_length h.2)

theorem ciStarts_getD : ∀ {p x : List Char}, ciStarts p x = true →
    ∀ j, j < p.length → foldNat (x.getD j ' ') = foldNat (p.getD j ' ')
  | [], _, _, j, hj => by simp at hj
  | _ :: _, [], h, _, _ => by simp [ciStarts] at h
  | p :: ps, c :: cs, h, 0, _ => by
    simp only [ciStarts, Bool.and_eq_true] at h
    simpa [List.getD] using (lowerEq_iff.mp h.1).symm
  | p :: ps, c :: cs, h, j + 1, hj => by
    simp only [ciStarts, Bool.and_eq_true] at h
    simpa [List.getD] using ciStarts_getD h.2 j (by simpa using hj)

theorem ciStarts_take_mem : ∀ {p x : List Char}, ciStarts p x = true →
    ∀ c ∈ x.take p.length, ∃ q ∈ p, lowerEq q c = true
  | [], _, _, c, hc => by simp at hc
  | _ :: _, [], h, _, _ => by simp [ciStarts] at h
  | p :: ps, a :: cs, h, c, hc => by
    simp only [ciStarts, Bool.and_eq_true] at h
    simp only [List.length_cons, List.take_succ_cons, List.mem_cons] at hc
    rcases hc with rfl | hc
    · exact ⟨p, List.mem_cons_self p ps, h.1⟩
    · obtain ⟨q, hq, hqc⟩ := ciStarts_take_mem h.2 c hc
      exact ⟨q, List.mem_cons_of_mem _ hq, hqc⟩

theorem getD_drop : ∀ (l : List Char) (k j : Nat) (d : Char),
    (l.drop k).getD j d = l.getD (k + j) d
  | [], k, j, d => by simp
  | _, 0, _, _ => by simp
  | c :: cs, k + 1, j, d => by
    rw [List.drop_succ_cons, getD_drop cs k j d]
    show cs.getD (k + j) d = (c :: cs).getD (k + 1 + j) d
    rw [Nat.add_right_comm k 1 j, List.getD_cons_succ]

theorem takeWhile_append_drop (p : Char → Bool) :
    ∀ l : List Char, l.takeWhile p ++ l.drop (l.takeWhile p).length = l
  | [] => rfl
  | c :: cs => by
    by_cases h : p c
    · rw [List.takeWhile_cons_of_pos h]
      simpa using takeWhile_append_drop p cs
    · rw [List.takeWhile_cons_of_neg h]
      rfl

theorem takeWhile_append_of_all {p : Char → Bool} :
    ∀ {u : List Char} {x : Char} {v : List Char},
      (∀ c ∈ u, p c = true) → p x = false → (u ++ x :: v).takeWhile p = u
  | [], x, v, _, hx => by simp [List.takeWhile_cons, hx]
  | c :: u, x, v, hu, hx => by
    have hc : p c = true := hu c (List.mem_cons_self c u)
    simp only [List.cons_append, List.takeWhile_cons_of_pos hc, List.cons.injEq, true_and]
    exact takeWhile_append_of_all (fun a ha => hu a (List.mem_cons_of_mem _ ha)) hx

/-- Unfolding of a successful label match: the input splits into the 19
case-insensitively matched characters, greedy whitespace, at least one digit,
greedy whitespace, and the colon; the returned length counts exactly these. -/
theorem detLabel_decomp {s : List Char} {n : Nat} (h : detLabel s = some n) :
    ciStarts detPat s = true ∧
    ∃ w1 ds w2 t, s = s.take 19 ++ (w1 ++ (ds ++ (w2 ++ ':' :: t))) ∧
      (∀ c ∈ w1, jsWS c = true) ∧ (∀ c ∈ ds, jsDigit c = true) ∧ ds ≠ [] ∧
      (∀ c ∈ w2, jsWS c = true) ∧
      n = 19 + w1.length + ds.length + w2.length + 1 := by
  rw [detLabel] at h
  split at h
  case isFalse => exact absurd h (by simp)
  case isTrue hci =>
  simp only [detPat_len] at h
  refine ⟨hci, ?_⟩
  split at h
  case isTrue => exact absurd h (by simp)
  case isFalse hd =>
  split at h
  case h_2 => exact absurd h (by simp)
  case h_1 t heq =>
  have hn := (Option.some.injEq _ _).mp h
  set r1 := s.drop 19 with hr1
  set w1 := r1.takeWhile jsWS with hw1
  set r2 := r1.drop w1.length with hr2
  set ds := r2.takeWhile jsDigit with hds
  set r3 := r2.drop ds.length with hr3
  set w2 := r3.takeWhile jsWS with hw2
  refine ⟨w1, ds, w2, t, ?_, ?_, ?_, ?_, ?_, by omega⟩
  · have e0 : s.take 19 ++ r1 = s := List.take_append_drop 19 s
    have e1 : w1 ++ r2 = r1 := takeWhile_append_drop jsWS r1
    have e2 : ds ++ r3 = r2 := takeWhile_append_drop jsDigit r2
    have e3 : w2 ++ ':' :: t = r3 := by
      have := takeWhile_append_drop jsWS r3
      rwa [← hw2, heq] at this
    rw [e3, e2, e1, e0]
  · exact fun c hc => List.mem_takeWhile_imp hc
  · exact fun c hc => List.mem_takeWhile_imp hc
  · intro hnil
    exact hd (by rw [hnil]; rfl)
  · exact fun c hc => List.mem_takeWhile_imp hc

theorem detLabel_bounds {s : List Char} {n : Nat} (h : detLabel s = some n) :
    1 ≤ n ∧ n ≤ s.length := by
  obtain ⟨hci, w1, ds, w2, t, e, _, _, _, _, hn⟩ := detLabel_decomp h
  have h19 : 19 ≤ s.length := by simpa [detPat_len] using ciStarts_length hci
  have htake : (s.take 19).length = 19 := by
    simp [List.length_take]; omega
  have := congrArg List.length e
  simp only [List.length_append, List.length_cons, htake] at this
  omega

theorem detLabel_nil : detLabel [] = none := by decide

theorem detLabel_none_of_not_ci {x : List Char} (h : ciStarts detPat x = false) :
    detLabel x = none := by
  simp [detLabel, h]

theorem getD_append_left {l₁ l₂ : List Char} {n : Nat} (h : n < l₁.length) (d : Char) :
    (l₁ ++ l₂).getD n d = l₁.getD n d := by
  rw [List.getD_eq_getElem?_getD, List.getElem?_append_left h, List.getD_eq_getElem?_getD]

theorem getD_append_right {l₁ l₂ : List Char} {n : Nat} (h : l₁.length ≤ n) (d : Char) :
    (l₁ ++ l₂).getD n d = l₂.getD (n - l₁.length) d := by
  rw [List.getD_eq_getElem?_getD, List.getElem?_append_right h, List.getD_eq_getElem?_getD]

theorem getD_mem {l : List Char} {n : Nat} (h : n < l.length) (d : Char) :
    l.getD n d ∈ l := by
  rw [List.getD_eq_getElem?_getD, List.getElem?_eq_getElem h]
  exact List.getElem_mem h

/-- Two case-insensitive matches of a pattern cannot start `k` positions apart
when the pattern differs from its own shift by `k` somewhere on the overlap. -/
theorem ciStarts_selfDiff {p s : List Char} {k : Nat} (h1 : ciStarts p s = true)
    (h2 : ciStarts p (s.drop k) = true) (hk : ciSelfDiff p k = true) : False := by
  simp only [ciSelfDiff, List.any_eq_true, List.mem_range, bne_iff_ne, ne_eq] at hk
  obtain ⟨j, hj, hne⟩ := hk
  have e1 := ciStarts_getD h1 (k + j) (by omega)
  have e2 := ciStarts_getD h2 j (by omega)
  rw [getD_drop] at e2
  exact hne (e2.symm.trans e1)

/-- The detailed label cannot match again strictly inside a match of itself:
within the 19 pattern characters by the self-difference of the pattern, and
within the whitespace/digits/colon tail because none of those characters can
open `DETAILED`. -/
theorem detLabel_no_overlap {s : List Char} {n : Nat} (h : detLabel s = some n) :
    ∀ k, 0 < k → k < n → detLabel (s.drop k) = none := by
  obtain ⟨hci, w1, ds, w2, t, e, hw1, hds, -, hw2, hn⟩ := detLabel_decomp h
  have h19 : 19 ≤ s.length := by simpa [detPat_len] using ciStarts_length hci
  have htake : (s.take 19).length = 19 := by
    simp [List.length_take]; omega
  intro k hk0 hkn
  cases hb : ciStarts detPat (s.drop k) with
  | false => exact detLabel_none_of_not_ci hb
  | true =>
    exfalso
    by_cases hk19 : k < 19
    · have hdiff : ciSelfDiff detPat k = true := by
        have hall : ∀ m, m < 19 → 0 < m → ciSelfDiff detPat m = true := by decide
        exact hall k hk19 hk0
      exact ciStarts_selfDiff hci hb hdiff
    · -- the character at position k is whitespace, a digit, or the colon
      have hhead : foldNat (s.getD k ' ') = 100 := by
        have := ciStarts_getD hb 0 (by rw [detPat_len]; omega)
        rw [getD_drop, Nat.add_zero] at this
        exact this.trans (by decide)
      have hk' : k - 19 < w1.length + ds.length + w2.length + 1 := by omega
      have hgd : s.getD k ' ' = (w1 ++ (ds ++ (w2 ++ ':' :: t))).getD (k - 19) ' ' := by
        conv_lhs => rw [e]
        rw [getD_append_right (by omega), htake]
      have hfold : foldNat ((w1 ++ (ds ++ (w2 ++ ':' :: t))).getD (k - 19) ' ') = 100 := by
        rw [← hgd]; exact hhead
      set m := k - 19 with hm
      by_cases c1 : m < w1.length
      · rw [getD_append_left c1] at hfold
        exact jsWS_fold_ne (hw1 _ (getD_mem c1 ' ')) hfold
      · rw [getD_append_right (by omega)] at hfold
        by_cases c2 : m - w1.length < ds.length
        · rw [getD_append_left c2] at hfold
          exact jsDigit_fold_ne (hds _ (getD_mem c2 ' ')) hfold
        · rw [getD_append_right (by omega)] at hfold
          by_cases c3 : m - w1.length - ds.length < w2.length
          · rw [getD_append_left c3] at hfold
            exact jsWS_fold_ne (hw2 _ (getD_mem c3 ' ')) hfold
          · rw [getD_append_right (by omega)] at hfold
            have hz : m - w1.length - ds.length - w2.length = 0 := by omega
            rw [hz, List.getD_cons_zero] at hfold
            exact absurd hfold (by decide)

theorem boundaryHere_false_detLabel {x : List Char} (h : boundaryHere x = false) :
    detLabel x = none := by
  simp only [boundaryHere, Bool.or_eq_false_iff] at h
  exact Option.not_isSome_iff_eq_none.mp (by simp [h.1.1])

theorem grabBody_append : ∀ s : List Char, (grabBody s).1 ++ (grabBody s).2 = s
  | [] => rfl
  | c :: cs => by
    simp only [grabBody]
    split
    · rfl
    · simpa using grabBody_append cs

theorem grabBody_no_boundary : ∀ (s : List Char) (k : Nat),
    k < (grabBody s).1.length → boundaryHere (s.drop k) = false
  | [], k, hk => by simp [grabBody] at hk
  | c :: cs, k, hk => by
    simp only [grabBody] at hk ⊢
    split at hk
    · simp at hk
    case isFalse hb =>
      cases k with
      | zero => simpa using Bool.of_not_eq_true hb
      | succ k =>
        rw [List.drop_succ_cons]
        exact grabBody_no_boundary cs k (by simpa using hk)

theorem grabBody_snd (s : List Char) : (grabBody s).2 = s.drop (grabBody s).1.length :=
  calc (grabBody s).2
      = ((grabBody s).1 ++ (grabBody s).2).drop (grabBody s).1.length :=
        (List.drop_left _ _).symm
    _ = s.drop (grabBody s).1.length := by rw [grabBody_append s]

theorem grabBody_fst (s : List Char) : (grabBody s).1 = s.take (grabBody s).1.length :=
  calc (grabBody s).1
      = ((grabBody s).1 ++ (grabBody s).2).take (grabBody s).1.length :=
        (List.take_left _ _).symm
    _ = s.take (grabBody s).1.length := by rw [grabBody_append s]

theorem grabBody_fst_le (s : List Char) : (grabBody s).1.length ≤ s.length := by
  have h := congrArg List.length (grabBody_append s)
  simp only [List.length_append] at h
  omega

theorem findDet_none : ∀ {s : List Char}, findDet s = none →
    ∀ k, detLabel (s.drop k) = none
  | [], _, k => by rw [List.drop_nil]; exact detLabel_nil
  | c :: cs, h, k => by
    rw [findDet] at h
    cases hd : detLabel (c :: cs) with
    | some m => rw [hd] at h; exact absurd h (by simp)
    | none =>
      rw [hd] at h
      have htail : findDet cs = none := by
        cases hf : findDet cs with
        | none => rfl
        | some p => rw [hf] at h; exact absurd h (by simp)
      cases k with
      | zero => exact hd
      | succ k => rw [List.drop_succ_cons]; exact findDet_none htail k

theorem findDet_some : ∀ {s : List Char} {i n : Nat}, findDet s = some (i, n) →
    detLabel (s.drop i) = some n ∧ ∀ k, k < i → detLabel (s.drop k) = none
  | [], i, n, h => by rw [findDet] at h; exact absurd h (by simp)
  | c :: cs, i, n, h => by
    rw [findDet] at h
    cases hd : detLabel (c :: cs) with
    | some m =>
      rw [hd] at h
      simp only [Option.some.injEq, Prod.mk.injEq] at h
      obtain ⟨rfl, rfl⟩ := h
      exact ⟨hd, fun k hk => by omega⟩
    | none =>
      rw [hd] at h
      cases hf : findDet cs with
      | none => rw [hf] at h; exact absurd h (by simp)
      | some p =>
        rw [hf] at h
        simp only [Option.map_some', Option.some.injEq] at h
        obtain ⟨i', n'⟩ := p
        obtain ⟨hi, hn⟩ := Prod.mk.injEq .. ▸ h
        obtain ⟨hdi, hbef⟩ := findDet_some hf
        subst hi; subst hn
        refine ⟨by rw [List.drop_succ_cons]; exact hdi, fun k hk => ?_⟩
        cases k with
        | zero => exact hd
        | succ k => rw [List.drop_succ_cons]; exact hbef k (by omega)

theorem firstIdxOf_nil (p : List Char → Bool) : firstIdxOf p [] = 0 := rfl

theorem firstIdxOf_cons_true {p : List Char → Bool} {c : Char} {cs : List Char}
    (h : p (c :: cs) = true) : firstIdxOf p (c :: cs) = 0 := by
  rw [firstIdxOf]
  rw [show (c :: cs).length = cs.length + 1 from rfl, List.range_succ_eq_map]
  rw [List.find?_cons_of_pos _ (by simpa using h)]
  rfl

theorem firstIdxOf_cons_false {p : List Char → Bool} {c : Char} {cs : List Char}
    (h : p (c :: cs) = false) : firstIdxOf p (c :: cs) = firstIdxOf p cs + 1 := by
  rw [firstIdxOf, firstIdxOf]
  rw [show (c :: cs).length = cs.length + 1 from rfl, List.range_succ_eq_map]
  rw [List.find?_cons_of_neg _ (by simp [h]), List.find?_map]
  have hfn : (fun m => p ((c :: cs).drop m)) ∘ Nat.succ = fun m => p (cs.drop m) := by
    funext m; rfl
  rw [hfn]
  cases List.find? (fun m => p (cs.drop m)) (List.range cs.length) with
  | none => rfl
  | some j => rfl

theorem grabBody_fst_len : ∀ s : List Char, (grabBody s).1.length = firstBoundaryIdx s
  | [] => rfl
  | c :: cs => by
    simp only [grabBody]
    split
    case isTrue hb => rw [firstBoundaryIdx, firstIdxOf_cons_true hb]; rfl
    case isFalse hb =>
      have hb' : boundaryHere (c :: cs) = false := by simpa using hb
      rw [firstBoundaryIdx, firstIdxOf_cons_false hb']
      simp only [List.length_cons, Nat.succ.injEq]
      exact grabBody_fst_len cs

theorem grabBrief_take : ∀ s : List Char, grabBrief s = s.take (firstHashIdx s)
  | [] => rfl
  | c :: cs => by
    simp only [grabBrief]
    split
    case isTrue hb => rw [firstHashIdx, firstIdxOf_cons_true hb]; rfl
    case isFalse hb =>
      have hb' : ciStarts hashPat (c :: cs) = false := by simpa using hb
      rw [firstHashIdx, firstIdxOf_cons_false hb', List.take_succ_cons]
      exact congrArg (c :: ·) (grabBrief_take cs)

theorem findBrief_eq_specBriefIdx : ∀ s : List Char, findBrief s = specBriefIdx s
  | [] => rfl
  | c :: cs => by
    simp only [findBrief, specBriefIdx]
    split
    case isTrue hb =>
      rw [show (c :: cs).length = cs.length + 1 from rfl, List.range_succ_eq_map,
        List.find?_cons_of_pos _ (by simpa using hb)]
    case isFalse hb =>
      rw [show (c :: cs).length = cs.length + 1 from rfl, List.range_succ_eq_map,
        List.find?_cons_of_neg _ (by simpa using hb), List.find?_map]
      have hfn : (fun i => ciStarts briefPat ((c :: cs).drop i)) ∘ Nat.succ
          = fun i => ciStarts briefPat (cs.drop i) := by funext i; rfl
      rw [hfn, show (List.range cs.length).find? (fun i => ciStarts briefPat (cs.drop i))
          = specBriefIdx cs from rfl, ← findBrief_eq_specBriefIdx cs]

theorem filter_range_singleton (p : Nat → Bool) :
    ∀ {j i : Nat}, i < j → p i = true → (∀ k, k < j → k ≠ i → p k = false) →
      (List.range j).filter p = [i] := by
  intro j
  induction j with
  | zero => intro i hi hpi hk; omega
  | succ j ihj =>
    intro i hi hpi hk
    rw [List.range_succ, List.filter_append]
    by_cases hij : i = j
    · subst hij
      have h1 : (List.range i).filter p = [] := by
        rw [List.filter_eq_nil_iff]
        intro a ha
        rw [List.mem_range] at ha
        simp [hk a (by omega) (by omega)]
      simp [h1, hpi]
    · have h2 : p j = false := hk j (by omega) (fun h => hij h.symm)
      rw [ihj (by omega) hpi (fun k hk' hki => hk k (by omega) hki)]
      simp [h2]

theorem filter_range_split (p : Nat → Bool) {L i j : Nat} (hij : i < j) (hjL : j ≤ L)
    (hpi : p i = true) (hbef : ∀ k, k < j → k ≠ i → p k = false) :
    (List.range L).filter p
      = i :: ((List.range (L - j)).filter (fun m => p (j + m))).map (j + ·) := by
  have hL : L = j + (L - j) := by omega
  conv_lhs => rw [hL, List.range_add]
  rw [List.filter_append, filter_range_singleton p hij hpi hbef, List.filter_map]
  rfl

/-- The entry the exec-loop builds at a label match agrees with the spec's
description of that section: the matched text up to the first colon is the
label minus its final colon (the label contains no earlier colon), and the
captured body is the text to the first boundary. -/
theorem detEntry_eq_specEntryAt {s : List Char} {i n : Nat}
    (hdi : detLabel (s.drop i) = some n) : detEntry s i n = specEntryAt s i := by
  obtain ⟨hci, w1, ds, w2, t, e, hw1, hds, -, hw2, hn⟩ := detLabel_decomp hdi
  set x := s.drop i with hx
  have h19 : 19 ≤ x.length := by simpa [detPat_len] using ciStarts_length hci
  have htake : (x.take 19).length = 19 := by
    rw [List.length_take]; omega
  set A := x.take 19 ++ (w1 ++ (ds ++ w2)) with hA
  have hAlen : A.length = n - 1 := by
    simp only [hA, List.length_append, htake]; omega
  have hxA : x = A ++ ':' :: t := by rw [e, hA]; simp
  have hnA : n = A.length + 1 := by omega
  have htaken : x.take n = A ++ [':'] := by
    rw [show A ++ ':' :: t = (A ++ [':']) ++ t by simp] at hxA
    rw [hxA]
    exact List.take_left' (by simp; omega)
  have htakeA : x.take (n - 1) = A := by
    rw [hxA]
    exact List.take_left' (by omega)
  have hAnocolon : ∀ c ∈ A, c ≠ ':' := by
    intro c hc
    rcases List.mem_append.mp hc with hc19 | hcr
    · obtain ⟨q, hq, hqc⟩ := ciStarts_take_mem hci c (by rwa [detPat_len])
      intro hcolon
      subst hcolon
      have hq58 : foldNat q = 58 := by
        have := lowerEq_iff.mp hqc
        simpa using this
      have : ∀ q ∈ detPat, foldNat q ≠ 58 := by decide
      exact this q hq hq58
    · rcases List.mem_append.mp hcr with hcw | hcr2
      · exact jsWS_ne_colon (hw1 _ hcw)
      · rcases List.mem_append.mp hcr2 with hcd | hcw2
        · exact jsDigit_ne_colon (hds _ hcd)
        · exact jsWS_ne_colon (hw2 _ hcw2)
  have hbody : ∀ body : List Char,
      ((x.take n ++ body).takeWhile (fun c => c ≠ ':')) = A := by
    intro body
    rw [htaken, show (A ++ [':']) ++ body = A ++ ':' :: body by simp]
    exact takeWhile_append_of_all
      (fun c hc => by simpa using hAnocolon c hc) (by simp)
  simp only [detEntry, specEntryAt, hdi, Option.getD_some, ← hx]
  rw [hbody, htakeA, grabBody_fst, grabBody_fst_len]

/-- A spec-side section of a suffix is the section of the whole text at the
shifted position. -/
theorem specEntryAt_shift (s : List Char) (j m : Nat) :
    specEntryAt (s.drop j) m = specEntryAt s (j + m) := by
  simp only [specEntryAt, List.drop_drop]
  rw [show j + m + (detLabel (s.drop (j + m))).getD 0
      = j + (m + (detLabel (s.drop (j + m))).getD 0) by omega]

/-- The exec loop over the detailed regex computes exactly the spec's list of
sections: every label occurrence is visited, in source order, and none is
skipped — labels cannot hide inside a previous match (`detLabel_no_overlap`)
nor inside a captured body (`grabBody_no_boundary`). -/
theorem scanDetailedAux_eq_spec : ∀ (fuel : Nat) (s : List Char), s.length ≤ fuel →
    scanDetailedAux fuel s = specDetailed s := by
  intro fuel
  induction fuel with
  | zero =>
    intro s hs
    obtain rfl := List.length_eq_zero.mp (Nat.le_zero.mp hs)
    rfl
  | succ fuel ih =>
    intro s hs
    cases hfd : findDet s with
    | none =>
      have hnone := findDet_none hfd
      have hfil : labelsIn s = [] := by
        rw [labelsIn, List.filter_eq_nil_iff]
        intro a ha
        simp [hnone a]
      simp [scanDetailedAux, hfd, specDetailed, hfil]
    | some pr =>
      obtain ⟨i, n⟩ := pr
      obtain ⟨hdi, hbefore⟩ := findDet_some hfd
      obtain ⟨hn1, hnle⟩ := detLabel_bounds hdi
      rw [List.length_drop] at hnle
      have hiL : i < s.length := by
        by_contra hge
        rw [List.drop_eq_nil_of_le (by omega), detLabel_nil] at hdi
        exact absurd hdi (by simp)
      have hinL : i + n ≤ s.length := by omega
      have hble := grabBody_fst_le (s.drop (i + n))
      rw [List.length_drop] at hble
      set blen := (grabBody (s.drop (i + n))).1.length with hblen
      set j := i + n + blen with hj
      have hjL : j ≤ s.length := by omega
      have hr2 : (grabBody (s.drop (i + n))).2 = s.drop j := by
        rw [grabBody_snd, ← hblen, List.drop_drop]
      have hlen2 : (s.drop j).length ≤ fuel := by
        rw [List.length_drop]; omega
      have hpi : (detLabel (s.drop i)).isSome = true := by rw [hdi]; rfl
      have hbef : ∀ k, k < j → k ≠ i → (detLabel (s.drop k)).isSome = false := by
        intro k hk hki
        rcases Nat.lt_or_ge k i with hlt | hge
        · rw [hbefore k hlt]; rfl
        · rcases Nat.lt_or_ge k (i + n) with hlt2 | hge2
          · have hov := detLabel_no_overlap hdi (k - i) (by omega) (by omega)
            rw [List.drop_drop, show i + (k - i) = k by omega] at hov
            rw [hov]; rfl
          · have hb := grabBody_no_boundary (s.drop (i + n)) (k - (i + n)) (by omega)
            rw [List.drop_drop, show i + n + (k - (i + n)) = k by omega] at hb
            rw [boundaryHere_false_detLabel hb]; rfl
      have hsplit := filter_range_split (fun k => (detLabel (s.drop k)).isSome)
        (show i < j by omega) hjL hpi hbef
      have hlab : labelsIn s = i :: (labelsIn (s.drop j)).map (j + ·) := by
        rw [labelsIn, hsplit]
        congr 1
        rw [labelsIn, List.length_drop]
        congr 1
        apply List.filter_congr
        intro m hm
        show (detLabel (s.drop (j + m))).isSome = (detLabel ((s.drop j).drop m)).isSome
        rw [List.drop_drop]
      have hfinal : specDetailed s = specEntryAt s i :: specDetailed (s.drop j) := by
        show (labelsIn s).map (specEntryAt s) = _
        rw [hlab, List.map_cons, List.map_map]
        congr 1
        show (labelsIn (s.drop j)).map (specEntryAt s ∘ (j + ·))
            = (labelsIn (s.drop j)).map (specEntryAt (s.drop j))
        apply List.map_congr_left
        intro m hm
        show specEntryAt s (j + m) = specEntryAt (s.drop j) m
        exact (specEntryAt_shift s j m).symm
      calc scanDetailedAux (fuel + 1) s
          = detEntry s i n :: scanDetailedAux fuel (grabBody (s.drop (i + n))).2 := by
            simp [scanDetailedAux, hfd]
        _ = specEntryAt s i :: specDetailed (s.drop j) := by
            rw [detEntry_eq_specEntryAt hdi, hr2, ih _ hlen2]
        _ = specDetailed s := hfinal.symm

theorem scanDetailed_eq_specDetailed (s : List Char) : scanDetailed s = specDetailed s :=
  scanDetailedAux_eq_spec s.length s le_rfl

theorem briefReflection_eq_specBrief (s : List Char) : briefReflection s = specBrief s := by
  rw [briefReflection, specBrief, findBrief_eq_specBriefIdx]
  cases specBriefIdx s with
  | none => rfl
  | some i => simp [grabBrief_take]

/-! ## C2 — detailed-reflection extraction -/

/-- C2: the detailed pass of the extractor returns exactly one Reflection per
detailed-label occurrence, in source order, with `type` the label text before
its colon (trimmed) and `content` the text between the label and the next
label, `Reflection:` label, `####` delimiter or end of text (trimmed); and a
text with zero reflection-style labels yields the empty sequence. -/
theorem claim_C2_detailed_extraction (t : String) :
    scanDetailed t.toList = specDetailed t.toList ∧
    (reflectionLabelCount t.toList = 0 → parseReflectionsFromAIOutput t = []) := by
  refine ⟨scanDetailed_eq_specDetailed _, fun h => ?_⟩
  rw [reflectionLabelCount, List.length_eq_zero, List.filter_eq_nil_iff] at h
  have hdet : labelsIn t.toList = [] := by
    rw [labelsIn, List.filter_eq_nil_iff]
    intro a ha hsome
    exact h a ha (by rw [Bool.or_eq_true]; exact Or.inl hsome)
  have hbrief : specBriefIdx t.toList = none := by
    rw [specBriefIdx, List.find?_eq_none]
    intro a ha hci
    exact h a ha (by rw [Bool.or_eq_true]; exact Or.inr hci)
  rw [parseReflectionsFromAIOutput, scanDetailed_eq_specDetailed,
    briefReflection_eq_specBrief, specDetailed, hdet, specBrief, hbrief]
  rfl

/-- Witness for C2: a concrete two-section text, and the zero-label case on
`"hello"`. -/
theorem claim_C2_witness :
    scanDetailed ("DETAILED REFLECTION 1: alpha\nDETAILED REFLECTION 2: beta ####x").toList
      = specDetailed ("DETAILED REFLECTION 1: alpha\nDETAILED REFLECTION 2: beta ####x").toList ∧
    parseReflectionsFromAIOutput "hello" = [] :=
  ⟨(claim_C2_detailed_extraction _).1,
   (claim_C2_detailed_extraction "hello").2 (by decide)⟩

/-! ## C3 — brief-reflection extraction and ordering -/

/-- C3: the whole extraction is the detailed sections in source order followed
by at most one brief reflection — the one announced by the first `Reflection:`
label (matched case-insensitively, as the regex's `i` flag prescribes), with
fixed type `BRIEF REFLECTION` and content running to the next `####` or the
end of text, trimmed — regardless of where that label sits in the text. -/
theorem claim_C3_brief_extraction (t : String) :
    parseReflectionsFromAIOutput t
      = specDetailed t.toList ++ (specBrief t.toList).toList := by
  rw [parseReflectionsFromAIOutput, scanDetailed_eq_specDetailed,
    briefReflection_eq_specBrief]

end ChatRelay
